import Mathlib

/-!
Verification of the OWNERS-finder specification (spec.md) against the
repository.  The implementation files `owners_finder.py` / `owners.py` are not
present under `src/`; only their unit test `src/tests/owners_finder_test.py`
is.  Following the rules for missing code, the finder is modelled from the
spec's words (§3, §4, §7 of spec.md), and everywhere the spec leaves slack the
model is pinned to the behaviour asserted by the src test (the authority on
concrete behaviour).  Paths are embedded as lists of path components
(`"chrome/browser/defaults.h"` is `["chrome", "browser", "defaults.h"]`).
-/

namespace OwnersFinderSpec

abbrev Owner := String
abbrev FPath := List String

/-- The wildcard owner (`owners.EVERYONE` in the test): anyone may approve. -/
def EVERYONE : Owner := "*"

/-- A directory database: for each directory (as a component list) the list of
owners declared by its OWNERS file, in declaration order, together with its
`set noparent` flag.  Directories with no OWNERS file are simply absent. -/
abbrev DirDb := List (FPath × List Owner × Bool)

/-- Modelled from the spec: the §8 fixture tree, i.e. the OWNERS files of
`test_repo()` in src/tests/owners_finder_test.py (the parsing layer of the
missing owners.py is collapsed to the parsed per-directory data, which
`owners_file()` in the test constructs directly). -/
def fixtureDb : DirDb := [
  ([], (["ken@example.com", "peter@example.com", "tom@example.com"], false)),
  (["chrome"], (["ben@example.com", "brett@example.com"], false)),
  (["chrome", "browser"], (["brett@example.com"], false)),
  (["chrome", "gpu"], (["ken@example.com"], false)),
  (["chrome", "renderer"], (["peter@example.com"], false)),
  (["content"], (["john@example.com", "darin@example.com"], true)),
  (["content", "baz"], (["brett@example.com"], false)),
  (["content", "views"], (["ben@example.com", "john@example.com", "*"], true))
]

def ben : Owner := "ben@example.com"
def brett : Owner := "brett@example.com"
def darin : Owner := "darin@example.com"
def john : Owner := "john@example.com"
def ken : Owner := "ken@example.com"
def peter : Owner := "peter@example.com"
def tom : Owner := "tom@example.com"

/-- Owners and noparent flag declared directly in directory `d`. -/
def dbEntry (db : DirDb) (d : FPath) : List Owner × Bool :=
  match db.find? (fun e => decide (e.1 = d)) with
  | some e => e.2
  | none => ([], false)

/-- The chain of directories from `d` up to the root, e.g.
`[["content", "baz"], ["content"], []]`. -/
def chainDirs (d : FPath) : List FPath :=
  (List.range (d.length + 1)).map (fun k => d.take (d.length - k))

/-- Modelled from the spec: §4.1 resolution walk over a directory chain,
nearest directory first; each directory contributes its declared owners at
the given distance (the file's own directory is distance 1), and a
`set noparent` directory stops the walk (inclusive). -/
def walkChain (db : DirDb) : List FPath → Nat → List (Owner × Nat)
  | [], _ => []
  | d :: rest, k =>
    let e := dbEntry db d
    let here := e.1.map (fun o => (o, k))
    if e.2 then here else here ++ walkChain db rest (k + 1)

/-- Keep only the first (nearest) occurrence of each owner. -/
def dedupOwners (seen : List Owner) : List (Owner × Nat) → List (Owner × Nat)
  | [] => []
  | p :: rest =>
    if p.1 ∈ seen then dedupOwners seen rest
    else p :: dedupOwners (p.1 :: seen) rest

/-- Eligible owners of the directory `dir`, each with the distance of the
directory that declares it (nearest declaration wins). -/
def ownersDist (db : DirDb) (dir : FPath) : List (Owner × Nat) :=
  dedupOwners [] (walkChain db (chainDirs dir) 1)

/-- Modelled from the spec: `owners_for(file)` — union of the declared owners
of the file's directory and (short of a `noparent` stop) its ancestors. -/
def ownersFor (db : DirDb) (f : FPath) : List Owner :=
  (ownersDist db f.dropLast).map Prod.fst

def joinPath (f : FPath) : String := String.intercalate "/" f

/-- Modelled from the spec: `print_file_info(file)` emits the single line
`"<path> [<owner-count>]"`, owner-count being the number of eligible owners
computed by the upward resolution walk. -/
def print_file_info (db : DirDb) (f : FPath) : List String :=
  [joinPath f ++ " [" ++ toString (ownersFor db f).length ++ "]"]

/-- The files of interest of the fixture (`_BaseTestCase.default_files`). -/
def default_files : List FPath := [
  ["base", "vlog.h"],
  ["chrome", "browser", "defaults.h"],
  ["chrome", "gpu", "gpu_channel.h"],
  ["chrome", "renderer", "gpu", "gpu_channel_host.h"],
  ["chrome", "renderer", "safe_browsing", "scorer.h"],
  ["content", "content.gyp"],
  ["content", "bar", "foo.cc"],
  ["content", "baz", "ugly.cc"],
  ["content", "baz", "ugly.h"],
  ["content", "views", "pie.h"]]

/-- Modelled from the spec: the files that start out unreviewed — files of
interest that have at least one eligible owner, minus files already satisfied
by the wildcard owner (§3: the wildcard "satisfies ownership of every file
under that directory's scope", so such files are born covered; the src test
pins this: `content/views/pie.h` is absent from `unreviewed_files`). -/
def interestingFiles (db : DirDb) (files : List FPath) : List FPath :=
  files.filter (fun f =>
    decide (ownersFor db f ≠ []) && decide (EVERYONE ∉ ownersFor db f))

/-- Total distance and file count of an owner over a list of files:
the raw data of the closeness-weighted priority score. -/
def scoreData (db : DirDb) (files : List FPath) (o : Owner) : Nat × Nat :=
  files.foldl
    (fun acc f =>
      match (ownersDist db f.dropLast).lookup o with
      | some k => (acc.1 + k, acc.2 + 1)
      | none => acc) (0, 0)

/-- Exact score comparison: `scoreLt (t1, n1) (t2, n2)` decides `t1 / n1 ^ (7/4) < t2 / n2 ^ (7/4)`
exactly, by cross-multiplying after raising to the 4th power. -/
def scoreLt (a b : Nat × Nat) : Bool :=
  decide (a.1 ^ 4 * b.2 ^ 7 < b.1 ^ 4 * a.2 ^ 7)

/-- Exact score equality, same encoding as `scoreLt`. -/
def scoreEq (a b : Nat × Nat) : Bool :=
  decide (a.1 ^ 4 * b.2 ^ 7 = b.1 ^ 4 * a.2 ^ 7)

/-- All owners in declaration order: walk the directories in database order
and their owner lines in file order, keeping first occurrences. -/
def declOwnersAux (seen : List Owner) : List Owner → List Owner
  | [] => []
  | o :: rest =>
    if o ∈ seen then declOwnersAux seen rest
    else o :: declOwnersAux (o :: seen) rest

def declOwners (db : DirDb) : List Owner :=
  declOwnersAux [] (db.foldr (fun e acc => e.2.1 ++ acc) [])

/-- Position of an owner in declaration order (tie-break of the queue). -/
def ownerRank (db : DirDb) (o : Owner) : Nat := (declOwners db).indexOf o

def insertSorted (le : Owner → Owner → Bool) (a : Owner) : List Owner → List Owner
  | [] => [a]
  | b :: bs => if le a b then a :: b :: bs else b :: insertSorted le a bs

def sortByLe (le : Owner → Owner → Bool) : List Owner → List Owner
  | [] => []
  | a :: as => insertSorted le a (sortByLe le as)

/-- Modelled from the spec: the initial `owners_queue` — every owner (other
than the wildcard) that can approve at least one initially-unreviewed file,
ordered by the closeness-weighted priority score (total distance to the files
the owner can approve divided by count^(7/4), smaller first), ties broken by
declaration order.  Spec §4.2 words the key as (-count, owner), but the §8
fixture queue asserted by the src test requires the distance-weighted order
(see the C2 theorems); §9 of the spec directs pinning the priority policy via
the literal test scenarios. -/
def initQueue (db : DirDb) (files : List FPath) : List Owner :=
  sortByLe
    (fun a b =>
      scoreLt (scoreData db files a) (scoreData db files b) ||
      (scoreEq (scoreData db files a) (scoreData db files b) &&
        decide (ownerRank db a ≤ ownerRank db b)))
    ((declOwners db).filter (fun o =>
      decide (o ≠ EVERYONE) && decide ((scoreData db files o).2 ≠ 0)))

/-- Lexicographic comparison of character lists by code point. -/
def lexLe : List Char → List Char → Bool
  | [], _ => true
  | _ :: _, [] => false
  | a :: as, b :: bs =>
    if a.toNat < b.toNat then true
    else if b.toNat < a.toNat then false
    else lexLe as bs

/-- Lexicographic order on owner identifiers. -/
def strLe (a b : String) : Bool := lexLe a.data b.data

/-- Follows the spec's words (§4.2), for comparison with `initQueue`: the
queue ordered by the key (negative count of currently-unreviewed files the
owner can approve, owner identifier as lexicographic tie-break). -/
def specCountQueue (db : DirDb) (files : List FPath) : List Owner :=
  sortByLe
    (fun a b =>
      decide ((scoreData db files b).2 < (scoreData db files a).2) ||
      (decide ((scoreData db files a).2 = (scoreData db files b).2) &&
        strLe a b))
    ((declOwners db).filter (fun o =>
      decide (o ≠ EVERYONE) && decide ((scoreData db files o).2 ≠ 0)))

/-- Modelled from the spec: the mutable session state of the missing
owners_finder.py (§3 "OwnersFinder session state" plus the finder's emitted
text events, which the test intercepts in `output`). -/
structure FinderState where
  owners_queue : List Owner
  unreviewed_files : List FPath
  selected_owners : List Owner
  deselected_owners : List Owner
  reviewed_by : List (FPath × Owner)
  output : List String
deriving DecidableEq

/-- Modelled from the spec (§7): a `PreconditionError`-kind failure. -/
inductive FinderError where
  | precondition : Owner → FinderError
deriving DecidableEq

instance finderResultDecEq : DecidableEq (Except FinderError FinderState) := fun a b =>
  match a, b with
  | Except.ok x, Except.ok y =>
    if h : x = y then isTrue (by rw [h]) else isFalse (fun hh => h (Except.ok.inj hh))
  | Except.error x, Except.error y =>
    if h : x = y then isTrue (by rw [h]) else isFalse (fun hh => h (Except.error.inj hh))
  | Except.ok _, Except.error _ => isFalse (fun hh => Except.noConfusion hh)
  | Except.error _, Except.ok _ => isFalse (fun hh => Except.noConfusion hh)

/-- Does `o` approve at least one of the given files? -/
def coversAny (fto : FPath → List Owner) (o : Owner) (files : List FPath) : Bool :=
  files.any (fun f => decide (o ∈ fto f))

/-- Modelled from the spec: the state change of accepting owner `o` — emit
`Selected: <o>`, move `o` out of the queue into `selected_owners`, and mark
every unreviewed file `o` can approve as reviewed by `o` (the src test pins
the credit to the owner whose selection covered the file). -/
def selectRaw (fto : FPath → List Owner) (o : Owner) (s : FinderState) : FinderState :=
  { owners_queue := s.owners_queue.erase o
    unreviewed_files := s.unreviewed_files.filter (fun f => decide (o ∉ fto f))
    selected_owners := s.selected_owners ++ [o]
    deselected_owners := s.deselected_owners
    reviewed_by := s.reviewed_by ++
      (s.unreviewed_files.filter (fun f => decide (o ∈ fto f))).map (fun f => (f, o))
    output := s.output ++ ["Selected: " ++ o] }

/-- Modelled from the spec: the state change of rejecting owner `o` — emit
`Deselected: <o>` and move `o` out of the queue into `deselected_owners`. -/
def deselectRaw (o : Owner) (s : FinderState) : FinderState :=
  { s with
    owners_queue := s.owners_queue.erase o
    deselected_owners := s.deselected_owners ++ [o]
    output := s.output ++ ["Deselected: " ++ o] }

/-- The remaining candidate approvers of file `f`: its eligible owners that
have not been deselected. -/
def candidates (fto : FPath → List Owner) (s : FinderState) (f : FPath) : List Owner :=
  (fto f).filter (fun o => decide (o ∉ s.deselected_owners))

/-- The first queued owner whose entire remaining coverage is already covered
(nothing left to contribute) — the implied-redundancy rule of §4.2. -/
def findDeselect (fto : FPath → List Owner) (s : FinderState) : Option Owner :=
  s.owners_queue.find? (fun o => !coversAny fto o s.unreviewed_files)

def mandatoryAt (fto : FPath → List Owner) (s : FinderState) (f : FPath) : Option Owner :=
  match candidates fto s f with
  | [p] => if p ∈ s.owners_queue then some p else none
  | _ => none

/-- An owner that became mandatory: the single remaining candidate of some
still-unreviewed file (§4.2 deselect contract). -/
def findMandatory (fto : FPath → List Owner) (s : FinderState) : Option Owner :=
  (s.unreviewed_files.filterMap (mandatoryAt fto s)).head?

/-- Modelled from the spec: the recursive follow-up of §4.2 — auto-deselect
queued owners with nothing left to contribute (reported in queue order), and
auto-select owners that became the unique remaining candidate of some
unreviewed file; terminates because every step removes one owner from the
queue (the fuel is the queue length at the call). -/
def cascade (fto : FPath → List Owner) : Nat → FinderState → FinderState
  | 0, s => s
  | Nat.succ n, s =>
    match findDeselect fto s with
    | some o => cascade fto n (deselectRaw o s)
    | none =>
      match findMandatory fto s with
      | some p => cascade fto n (selectRaw fto p s)
      | none => s

/-- Modelled from the spec: `select_owner(owner)` — preconditions (owner is a
known candidate and not already decided) are checked up front and a
`PreconditionError` rejects the call outright, leaving the state untouched;
otherwise the owner is selected and the implied-redundancy / mandatory-owner
cascade runs. -/
def select_owner (fto : FPath → List Owner) (allOwners : List Owner) (o : Owner)
    (s : FinderState) : Except FinderError FinderState :=
  if o ∈ allOwners ∧ o ∉ s.selected_owners ∧ o ∉ s.deselected_owners then
    Except.ok (cascade fto s.owners_queue.length (selectRaw fto o s))
  else Except.error (FinderError.precondition o)

/-- Modelled from the spec: `deselect_owner(owner)` — same preconditions,
then the rejection plus cascade. -/
def deselect_owner (fto : FPath → List Owner) (allOwners : List Owner) (o : Owner)
    (s : FinderState) : Except FinderError FinderState :=
  if o ∈ allOwners ∧ o ∉ s.selected_owners ∧ o ∉ s.deselected_owners then
    Except.ok (cascade fto s.owners_queue.length (deselectRaw o s))
  else Except.error (FinderError.precondition o)

/-- The post-construction state: the priority queue, all interesting files
unreviewed, no owner decided, nothing emitted. -/
def initState (queue : List Owner) (files : List FPath) : FinderState :=
  ⟨queue, files, [], [], [], []⟩

/-- Modelled from the spec: `reset()` restores the session state to its
post-construction value from the construction-time data, without re-reading
the filesystem. -/
def reset (queue : List Owner) (files : List FPath) (_s : FinderState) : FinderState :=
  initState queue files

/-- Repeatedly select the owner at the head of the queue (§8 "selecting every
owner in `owners_queue` in priority order"). -/
def selectAllSteps (fto : FPath → List Owner) : Nat → FinderState → FinderState
  | 0, s => s
  | Nat.succ n, s =>
    match s.owners_queue with
    | [] => s
    | o :: _ => selectAllSteps fto n (cascade fto s.owners_queue.length (selectRaw fto o s))

/-- The session states reachable from construction through the public
commands. -/
inductive Reachable (fto : FPath → List Owner) (queue : List Owner) (files : List FPath) :
    FinderState → Prop where
  | init : Reachable fto queue files (initState queue files)
  | select (s s' : FinderState) (o : Owner) : Reachable fto queue files s →
      select_owner fto queue o s = Except.ok s' → Reachable fto queue files s'
  | deselect (s s' : FinderState) (o : Owner) : Reachable fto queue files s →
      deselect_owner fto queue o s = Except.ok s' → Reachable fto queue files s'
  | doReset (s : FinderState) : Reachable fto queue files s →
      Reachable fto queue files (reset queue files s)

/-- The fixture's file-to-owners map. -/
def fixtureFto (f : FPath) : List Owner := ownersFor fixtureDb f

def fixtureFiles : List FPath := interestingFiles fixtureDb default_files

def fixtureQueue : List Owner := initQueue fixtureDb fixtureFiles

/-- The fixture finder right after construction (`defaultFinder()`). -/
def fixtureInit : FinderState := initState fixtureQueue fixtureFiles

def vlog : FPath := ["base", "vlog.h"]
def defaultsH : FPath := ["chrome", "browser", "defaults.h"]
def gpuChannel : FPath := ["chrome", "gpu", "gpu_channel.h"]
def gpuHost : FPath := ["chrome", "renderer", "gpu", "gpu_channel_host.h"]
def scorer : FPath := ["chrome", "renderer", "safe_browsing", "scorer.h"]
def gyp : FPath := ["content", "content.gyp"]
def fooCc : FPath := ["content", "bar", "foo.cc"]
def uglyCc : FPath := ["content", "baz", "ugly.cc"]
def uglyH : FPath := ["content", "baz", "ugly.h"]
def pieH : FPath := ["content", "views", "pie.h"]

/-- The session state after `select_owner(john)` on the fixture finder, as
asserted by `OwnersFinderTests.test_select`. -/
def johnState : FinderState :=
  { owners_queue := [brett, peter, ken, ben, tom]
    unreviewed_files := [vlog, defaultsH, gpuChannel, gpuHost, scorer]
    selected_owners := [john]
    deselected_owners := [darin]
    reviewed_by := [(gyp, john), (fooCc, john), (uglyCc, john), (uglyH, john)]
    output := ["Selected: " ++ john, "Deselected: " ++ darin] }

/-- The session state after `deselect_owner(john)` on the fixture finder, as
asserted by `OwnersFinderTests.test_deselect`. -/
def deselJohnState : FinderState :=
  { owners_queue := [brett, peter, ken, ben, tom]
    unreviewed_files := [vlog, defaultsH, gpuChannel, gpuHost, scorer]
    selected_owners := [darin]
    deselected_owners := [john]
    reviewed_by := [(gyp, darin), (fooCc, darin), (uglyCc, darin), (uglyH, darin)]
    output := ["Deselected: " ++ john, "Selected: " ++ darin] }

/-- Spec §8 invariant: `reviewed_by` never assigns a file to an owner outside
`selected_owners`. -/
def RbInv (s : FinderState) : Prop :=
  ∀ p ∈ s.reviewed_by, Prod.snd p ∈ s.selected_owners

/-- Every unreviewed file can still be approved by some queued owner. -/
def CoverInv (fto : FPath → List Owner) (s : FinderState) : Prop :=
  ∀ f ∈ s.unreviewed_files, ∃ o ∈ s.owners_queue, o ∈ fto f

/-- Owners deselected beyond the base set `base` have no remaining coverage:
they approve none of the currently unreviewed files. -/
def FreshDesel (fto : FPath → List Owner) (base : List Owner) (s : FinderState) : Prop :=
  ∀ p, p ∈ s.deselected_owners → p ∉ base → ∀ f ∈ s.unreviewed_files, p ∉ fto f

/-- The unreviewed files and the reviewed files both stay within the initial
file set. -/
def FilesBound (files : List FPath) (s : FinderState) : Prop :=
  s.unreviewed_files ⊆ files ∧ ∀ p ∈ s.reviewed_by, Prod.fst p ∈ files

theorem select_owner_ok {fto : FPath → List Owner} {allOwners : List Owner} {o : Owner}
    {s s' : FinderState} (h : select_owner fto allOwners o s = Except.ok s') :
    s' = cascade fto s.owners_queue.length (selectRaw fto o s) := by
  by_cases hc : o ∈ allOwners ∧ o ∉ s.selected_owners ∧ o ∉ s.deselected_owners
  · unfold select_owner at h
    rw [if_pos hc] at h
    exact (Except.ok.inj h).symm
  · unfold select_owner at h
    rw [if_neg hc] at h
    exact Except.noConfusion h

theorem deselect_owner_ok {fto : FPath → List Owner} {allOwners : List Owner} {o : Owner}
    {s s' : FinderState} (h : deselect_owner fto allOwners o s = Except.ok s') :
    s' = cascade fto s.owners_queue.length (deselectRaw o s) := by
  by_cases hc : o ∈ allOwners ∧ o ∉ s.selected_owners ∧ o ∉ s.deselected_owners
  · unfold deselect_owner at h
    rw [if_pos hc] at h
    exact (Except.ok.inj h).symm
  · unfold deselect_owner at h
    rw [if_neg hc] at h
    exact Except.noConfusion h

theorem coversAny_eq_false {fto : FPath → List Owner} {o : Owner} {files : List FPath}
    (h : coversAny fto o files = false) : ∀ f ∈ files, o ∉ fto f := by
  intro f hf hmem
  have ht : coversAny fto o files = true := by
    unfold coversAny
    rw [List.any_eq_true]
    exact ⟨f, hf, decide_eq_true hmem⟩
  rw [h] at ht
  cases ht

theorem findDeselect_spec {fto : FPath → List Owner} {s : FinderState} {o : Owner}
    (h : findDeselect fto s = some o) :
    o ∈ s.owners_queue ∧ ∀ f ∈ s.unreviewed_files, o ∉ fto f := by
  refine ⟨List.mem_of_find?_eq_some h, ?_⟩
  have hp := List.find?_some h
  apply coversAny_eq_false
  simpa using hp

theorem selectRaw_unrev_mem {fto : FPath → List Owner} {o : Owner} {s : FinderState}
    {f : FPath} (h : f ∈ (selectRaw fto o s).unreviewed_files) :
    f ∈ s.unreviewed_files ∧ o ∉ fto f := by
  have := List.mem_filter.mp h
  simpa using this

theorem selectRaw_rb_mem {fto : FPath → List Owner} {o : Owner} {s : FinderState}
    {p : FPath × Owner} (h : p ∈ (selectRaw fto o s).reviewed_by) :
    p ∈ s.reviewed_by ∨ (Prod.fst p ∈ s.unreviewed_files ∧ Prod.snd p = o) := by
  simp only [selectRaw, List.mem_append] at h
  rcases h with h | h
  · exact Or.inl h
  · rcases List.mem_map.mp h with ⟨f, hf, hfp⟩
    rcases List.mem_filter.mp hf with ⟨hf1, _⟩
    exact Or.inr (by rw [← hfp]; exact ⟨hf1, rfl⟩)

theorem cascade_selected_subset (fto : FPath → List Owner) (n : Nat) :
    ∀ s : FinderState, s.selected_owners ⊆ (cascade fto n s).selected_owners := by
  induction n with
  | zero => intro s; exact fun a h => h
  | succ n ih =>
    intro s
    unfold cascade
    cases hd : findDeselect fto s with
    | some o =>
      intro a ha
      exact ih (deselectRaw o s) ha
    | none =>
      cases hm : findMandatory fto s with
      | some p =>
        intro a ha
        refine ih (selectRaw fto p s) ?_
        simp [selectRaw]
        exact Or.inl ha
      | none => exact fun a h => h

theorem cascade_unrev_subset (fto : FPath → List Owner) (n : Nat) :
    ∀ s : FinderState, (cascade fto n s).unreviewed_files ⊆ s.unreviewed_files := by
  induction n with
  | zero => intro s; exact fun a h => h
  | succ n ih =>
    intro s
    unfold cascade
    cases hd : findDeselect fto s with
    | some o =>
      intro a ha
      exact ih (deselectRaw o s) ha
    | none =>
      cases hm : findMandatory fto s with
      | some p =>
        intro a ha
        exact (selectRaw_unrev_mem (ih (selectRaw fto p s) ha)).1
      | none => exact fun a h => h

theorem cascade_queue_sublist (fto : FPath → List Owner) (n : Nat) :
    ∀ s : FinderState, (cascade fto n s).owners_queue.Sublist s.owners_queue := by
  induction n with
  | zero => intro s; exact List.Sublist.refl _
  | succ n ih =>
    intro s
    unfold cascade
    cases hd : findDeselect fto s with
    | some o =>
      exact (ih (deselectRaw o s)).trans (List.erase_sublist o s.owners_queue)
    | none =>
      cases hm : findMandatory fto s with
      | some p =>
        exact (ih (selectRaw fto p s)).trans (List.erase_sublist p s.owners_queue)
      | none => exact List.Sublist.refl _

theorem cascade_output_extends (fto : FPath → List Owner) (n : Nat) :
    ∀ s : FinderState, ∃ t, (cascade fto n s).output = s.output ++ t := by
  induction n with
  | zero => intro s; exact ⟨[], by simp [cascade]⟩
  | succ n ih =>
    intro s
    unfold cascade
    cases hd : findDeselect fto s with
    | some o =>
      rcases ih (deselectRaw o s) with ⟨t, ht⟩
      exact ⟨("Deselected: " ++ o) :: t, by rw [ht]; simp [deselectRaw]⟩
    | none =>
      cases hm : findMandatory fto s with
      | some p =>
        rcases ih (selectRaw fto p s) with ⟨t, ht⟩
        exact ⟨("Selected: " ++ p) :: t, by rw [ht]; simp [selectRaw]⟩
      | none => exact ⟨[], by simp⟩

theorem cascade_rbinv (fto : FPath → List Owner) (n : Nat) :
    ∀ s : FinderState, RbInv s → RbInv (cascade fto n s) := by
  induction n with
  | zero => intro s h; exact h
  | succ n ih =>
    intro s h
    unfold cascade
    cases hd : findDeselect fto s with
    | some o =>
      refine ih (deselectRaw o s) ?_
      intro p hp
      exact h p hp
    | none =>
      cases hm : findMandatory fto s with
      | some p =>
        refine ih (selectRaw fto p s) ?_
        intro q hq
        rcases selectRaw_rb_mem hq with hq' | hq'
        · have := h q hq'
          simp [selectRaw]
          exact Or.inl this
        · simp [selectRaw]
          exact Or.inr hq'.2
      | none => exact h

theorem selectRaw_coverinv {fto : FPath → List Owner} {o : Owner} {s : FinderState}
    (h : CoverInv fto s) : CoverInv fto (selectRaw fto o s) := by
  intro f hf
  rcases selectRaw_unrev_mem hf with ⟨hf1, hfo⟩
  rcases h f hf1 with ⟨q, hq, hqf⟩
  have hne : q ≠ o := fun he => hfo (he ▸ hqf)
  exact ⟨q, (List.mem_erase_of_ne hne).mpr hq, hqf⟩

theorem coverinv_queue_nil {fto : FPath → List Owner} {s : FinderState}
    (hc : CoverInv fto s) (hq : s.owners_queue = []) : s.unreviewed_files = [] := by
  cases he : s.unreviewed_files with
  | nil => rfl
  | cons f fs =>
    rcases hc f (by rw [he]; exact List.mem_cons_self f fs) with ⟨o, ho, _⟩
    rw [hq] at ho
    cases ho

theorem cascade_coverinv (fto : FPath → List Owner) (n : Nat) :
    ∀ s : FinderState, CoverInv fto s → CoverInv fto (cascade fto n s) := by
  induction n with
  | zero => intro s h; exact h
  | succ n ih =>
    intro s h
    unfold cascade
    cases hd : findDeselect fto s with
    | some o =>
      refine ih (deselectRaw o s) ?_
      intro f hf
      rcases findDeselect_spec hd with ⟨_, hnone⟩
      rcases h f hf with ⟨q, hq, hqf⟩
      have hne : q ≠ o := fun he => hnone f hf (he ▸ hqf)
      exact ⟨q, (List.mem_erase_of_ne hne).mpr hq, hqf⟩
    | none =>
      cases hm : findMandatory fto s with
      | some p =>
        refine ih (selectRaw fto p s) ?_
        intro f hf
        rcases selectRaw_unrev_mem hf with ⟨hf1, hfp⟩
        rcases h f hf1 with ⟨q, hq, hqf⟩
        have hne : q ≠ p := fun he => hfp (he ▸ hqf)
        exact ⟨q, (List.mem_erase_of_ne hne).mpr hq, hqf⟩
      | none => exact h

theorem cascade_freshdesel (fto : FPath → List Owner) (base : List Owner) (n : Nat) :
    ∀ s : FinderState, FreshDesel fto base s → FreshDesel fto base (cascade fto n s) := by
  induction n with
  | zero => intro s h; exact h
  | succ n ih =>
    intro s h
    unfold cascade
    cases hd : findDeselect fto s with
    | some o =>
      refine ih (deselectRaw o s) ?_
      intro p hp hpb f hf
      rcases findDeselect_spec hd with ⟨_, hnone⟩
      simp only [deselectRaw, List.mem_append] at hp
      rcases hp with hp | hp
      · exact h p hp hpb f hf
      · have hpo : p = o := by simpa using hp
        exact hpo ▸ hnone f hf
    | none =>
      cases hm : findMandatory fto s with
      | some p =>
        refine ih (selectRaw fto p s) ?_
        intro q hq hqb f hf
        exact h q hq hqb f (selectRaw_unrev_mem hf).1
      | none => exact h

theorem cascade_filesbound (fto : FPath → List Owner) (files : List FPath) (n : Nat) :
    ∀ s : FinderState, FilesBound files s → FilesBound files (cascade fto n s) := by
  induction n with
  | zero => intro s h; exact h
  | succ n ih =>
    intro s h
    unfold cascade
    cases hd : findDeselect fto s with
    | some o =>
      exact ih (deselectRaw o s) ⟨h.1, h.2⟩
    | none =>
      cases hm : findMandatory fto s with
      | some p =>
        refine ih (selectRaw fto p s) ⟨?_, ?_⟩
        · intro f hf
          exact h.1 (selectRaw_unrev_mem hf).1
        · intro q hq
          rcases selectRaw_rb_mem hq with hq' | hq'
          · exact h.2 q hq'
          · exact h.1 hq'.1
      | none => exact h

theorem reachable_filesbound (fto : FPath → List Owner) (queue : List Owner)
    (files : List FPath) (s : FinderState) (h : Reachable fto queue files s) :
    FilesBound files s := by
  induction h with
  | init => exact ⟨fun f hf => hf, fun p hp => absurd hp (List.not_mem_nil p)⟩
  | select s s' o hr heq ih =>
    have hs := select_owner_ok heq
    subst hs
    refine cascade_filesbound fto files _ _ ⟨?_, ?_⟩
    · intro f hf
      exact ih.1 (selectRaw_unrev_mem hf).1
    · intro p hp
      rcases selectRaw_rb_mem hp with hp' | hp'
      · exact ih.2 p hp'
      · exact ih.1 hp'.1
  | deselect s s' o hr heq ih =>
    have hs := deselect_owner_ok heq
    subst hs
    exact cascade_filesbound fto files _ _ ⟨ih.1, ih.2⟩
  | doReset s hr ih => exact ⟨fun f hf => hf, fun p hp => absurd hp (List.not_mem_nil p)⟩

theorem selectAllSteps_empties (fto : FPath → List Owner) : ∀ (n : Nat) (s : FinderState),
    CoverInv fto s → s.owners_queue.length ≤ n →
    (selectAllSteps fto n s).unreviewed_files = [] := by
  intro n
  induction n with
  | zero =>
    intro s hc hl
    have hq : s.owners_queue = [] := List.eq_nil_of_length_eq_zero (Nat.le_zero.mp hl)
    exact coverinv_queue_nil hc hq
  | succ n ih =>
    intro s hc hl
    unfold selectAllSteps
    cases hq : s.owners_queue with
    | nil => exact coverinv_queue_nil hc hq
    | cons o t =>
      apply ih
      · exact cascade_coverinv fto _ _ (selectRaw_coverinv hc)
      · have h1 : (cascade fto (o :: t).length (selectRaw fto o s)).owners_queue.Sublist
            (selectRaw fto o s).owners_queue := cascade_queue_sublist fto _ _
        have h2 : (selectRaw fto o s).owners_queue = t := by
          show s.owners_queue.erase o = t
          rw [hq]
          exact List.erase_cons_head o t
        have h3 := h1.length_le
        rw [h2] at h3
        have h4 : t.length ≤ n := by
          have := hl
          rw [hq] at this
          simpa using Nat.le_of_succ_le_succ this
        exact Nat.le_trans h3 h4

/-- Claim C1: for the §8 fixture with the default files of interest,
`select_owner('john@example.com')` moves john into `selected_owners`,
automatically deselects darin, sets `reviewed_by` to map content/bar/foo.cc,
content/baz/ugly.cc, content/baz/ugly.h and content/content.gyp all to john,
and emits exactly the two ordered events `Selected: john@example.com` then
`Deselected: darin@example.com`. -/
theorem C1_select_john :
    select_owner fixtureFto fixtureQueue john fixtureInit = Except.ok johnState ∧
    johnState.selected_owners = [john] ∧
    johnState.deselected_owners = [darin] ∧
    johnState.reviewed_by.lookup fooCc = some john ∧
    johnState.reviewed_by.lookup uglyCc = some john ∧
    johnState.reviewed_by.lookup uglyH = some john ∧
    johnState.reviewed_by.lookup gyp = some john ∧
    johnState.reviewed_by.length = 4 ∧
    johnState.output =
      ["Selected: john@example.com", "Deselected: darin@example.com"] := by
  decide

/-- Claim C2 (counterexample): the initial `owners_queue` asserted by the src
test — [brett, john, darin, peter, ken, ben, tom] — is NOT ordered by the
priority key (negative count of approvable unreviewed files, lexicographic
owner tiebreak) that the claim states: john precedes peter yet approves fewer
of the nine initially-unreviewed files (4 against 5), and sorting by the
claimed key yields a different queue altogether. -/
theorem C2_counterexample :
    fixtureQueue = [brett, john, darin, peter, ken, ben, tom] ∧
    fixtureQueue.indexOf john < fixtureQueue.indexOf peter ∧
    (scoreData fixtureDb fixtureFiles john).2 <
      (scoreData fixtureDb fixtureFiles peter).2 ∧
    specCountQueue fixtureDb fixtureFiles ≠ fixtureQueue := by
  decide

/-- Claim C2 (amended): at construction `owners_queue` is ordered by the
closeness-weighted priority score (total declaration distance to the
approvable unreviewed files divided by their count raised to 7/4, smaller
first; `scoreLt`/`scoreEq` compare these scores exactly), with declaration
order as tiebreak; for the §8 fixture files the initial queue equals
[brett, john, darin, peter, ken, ben, tom]. -/
theorem C2_amended_queue :
    fixtureQueue = initQueue fixtureDb fixtureFiles ∧
    fixtureQueue = [brett, john, darin, peter, ken, ben, tom] ∧
    List.Pairwise (fun a b =>
      scoreLt (scoreData fixtureDb fixtureFiles a) (scoreData fixtureDb fixtureFiles b) = true ∨
      (scoreEq (scoreData fixtureDb fixtureFiles a) (scoreData fixtureDb fixtureFiles b) = true ∧
        ownerRank fixtureDb a ≤ ownerRank fixtureDb b)) fixtureQueue := by
  decide

/-- Claim C3: `deselect_owner(john)` on the fixture finder moves john into
`deselected_owners`, then auto-selects darin (the unique remaining candidate
for the still-unreviewed content files), crediting all four content files to
darin, and emits `Deselected: john@example.com` first followed by the
cascading `Selected: darin@example.com`; afterwards no still-unreviewed file
has exactly one remaining candidate owner (the cascade reached its fixed
point). -/
theorem C3_deselect_john :
    deselect_owner fixtureFto fixtureQueue john fixtureInit = Except.ok deselJohnState ∧
    deselJohnState.deselected_owners = [john] ∧
    deselJohnState.selected_owners = [darin] ∧
    deselJohnState.reviewed_by.lookup gyp = some darin ∧
    deselJohnState.reviewed_by.lookup fooCc = some darin ∧
    deselJohnState.reviewed_by.lookup uglyCc = some darin ∧
    deselJohnState.reviewed_by.lookup uglyH = some darin ∧
    deselJohnState.reviewed_by.length = 4 ∧
    deselJohnState.output =
      ["Deselected: john@example.com", "Selected: darin@example.com"] ∧
    (∀ f ∈ deselJohnState.unreviewed_files,
      (candidates fixtureFto deselJohnState f).length ≠ 1) := by
  decide

/-- Claim C4: whenever `select_owner o` succeeds, every owner that the call
auto-deselected (newly present in `deselected_owners`) has its entire
remaining coverage inside the already-covered files — it approves none of the
files left unreviewed — and in particular it is not the unique remaining
candidate of any unreviewed file. -/
theorem C4_auto_deselect_safe (fto : FPath → List Owner) (allOwners : List Owner)
    (o : Owner) (s s' : FinderState)
    (h : select_owner fto allOwners o s = Except.ok s')
    (p : Owner) (hp : p ∈ s'.deselected_owners) (hnp : p ∉ s.deselected_owners) :
    (∀ f ∈ s'.unreviewed_files, p ∉ fto f) ∧
    ¬ ∃ f ∈ s'.unreviewed_files, candidates fto s' f = [p] := by
  have hs := select_owner_ok h
  subst hs
  have base : FreshDesel fto s.deselected_owners (selectRaw fto o s) := by
    intro q hq hqb f hf
    have hq' : q ∈ s.deselected_owners := hq
    exact absurd hq' hqb
  have hfd := cascade_freshdesel fto s.deselected_owners s.owners_queue.length _ base
  have h1 := hfd p hp hnp
  refine ⟨h1, ?_⟩
  rintro ⟨f, hf, hc⟩
  have hpc : p ∈ candidates fto (cascade fto s.owners_queue.length (selectRaw fto o s)) f := by
    rw [hc]
    exact List.mem_singleton_self p
  exact h1 f hf (List.mem_filter.mp hpc).1

/-- Claim C4 witness: selecting john on the fixture auto-deselects darin, and
darin indeed approves none of the files still unreviewed afterwards. -/
theorem C4_witness :
    (∀ f ∈ johnState.unreviewed_files, darin ∉ fixtureFto f) ∧
    ¬ ∃ f ∈ johnState.unreviewed_files, candidates fixtureFto johnState f = [darin] :=
  C4_auto_deselect_safe fixtureFto fixtureQueue john fixtureInit johnState
    (by decide) darin (by decide) (by decide)

/-- Claim C5: `reset()` is a pure function of the construction-time data — it
restores the session state to its post-construction value for every current
state, touching no filesystem — hence `select_owner(o); reset();
select_owner(o)` returns exactly what a single `select_owner(o)` on a fresh
finder returns. -/
theorem C5_reset_determinism :
    (∀ (queue : List Owner) (files : List FPath) (s : FinderState),
      reset queue files s = initState queue files) ∧
    (∀ (fto : FPath → List Owner) (queue : List Owner) (files : List FPath)
      (o : Owner) (s1 : FinderState),
      select_owner fto queue o (initState queue files) = Except.ok s1 →
      select_owner fto queue o (reset queue files s1) =
        select_owner fto queue o (initState queue files)) :=
  ⟨fun _ _ _ => rfl, fun _ _ _ _ _ _ => rfl⟩

/-- Claim C5 witness: the round trip at john on the fixture finder. -/
theorem C5_witness :
    select_owner fixtureFto fixtureQueue john
        (reset fixtureQueue fixtureFiles johnState) =
      select_owner fixtureFto fixtureQueue john (initState fixtureQueue fixtureFiles) :=
  C5_reset_determinism.2 fixtureFto fixtureQueue fixtureFiles john johnState (by decide)

/-- Claim C6: in every session state reachable through `select_owner`,
`deselect_owner` and `reset`, every owner recorded as a value of
`reviewed_by` is a member of `selected_owners`. -/
theorem C6_reviewed_by_selected (fto : FPath → List Owner) (queue : List Owner)
    (files : List FPath) (s : FinderState) (h : Reachable fto queue files s) :
    ∀ p ∈ s.reviewed_by, Prod.snd p ∈ s.selected_owners := by
  induction h with
  | init => intro p hp; exact absurd hp (List.not_mem_nil p)
  | select s s' o hr heq ih =>
    have hs := select_owner_ok heq
    subst hs
    refine cascade_rbinv fto _ _ ?_
    intro p hp
    rcases selectRaw_rb_mem hp with hp' | hp'
    · have := ih p hp'
      simp only [selectRaw, List.mem_append]
      exact Or.inl this
    · simp only [selectRaw, List.mem_append]
      exact Or.inr (by simpa using hp'.2)
  | deselect s s' o hr heq ih =>
    have hs := deselect_owner_ok heq
    subst hs
    refine cascade_rbinv fto _ _ ?_
    intro p hp
    exact ih p hp
  | doReset s hr ih => intro p hp; exact absurd hp (List.not_mem_nil p)

/-- Claim C6 witness: in the reachable state after selecting john, the
`reviewed_by` entry for content/content.gyp names a selected owner. -/
theorem C6_witness : john ∈ johnState.selected_owners :=
  C6_reviewed_by_selected fixtureFto fixtureQueue fixtureFiles johnState
    (Reachable.select fixtureInit johnState john Reachable.init (by decide))
    (gyp, john) (by decide)

/-- Claim C7: if every unreviewed file has at least one eligible owner still
in the queue (no file of interest is unowned), then repeatedly selecting the
owner at the head of `owners_queue` — priority order — terminates with
`unreviewed_files` empty, the completion condition of the review loop. -/
theorem C7_selectall_completes (fto : FPath → List Owner) (s : FinderState) (n : Nat)
    (hcov : CoverInv fto s) (hn : s.owners_queue.length ≤ n) :
    (selectAllSteps fto n s).unreviewed_files = [] :=
  selectAllSteps_empties fto n s hcov hn

/-- Claim C7 witness: on the fixture finder (where no file of interest is
unowned) seven head-selections empty `unreviewed_files`. -/
theorem C7_witness : (selectAllSteps fixtureFto 7 fixtureInit).unreviewed_files = [] :=
  C7_selectall_completes fixtureFto fixtureInit 7
    (by unfold CoverInv; decide) (by decide)

/-- Claim C8: `print_file_info(file)` emits the single line
`"<path> [<owner-count>]"` with owner-count the number of eligible owners
from the upward resolution walk; on the fixture,
`print_file_info('chrome/browser/defaults.h')` emits
`"chrome/browser/defaults.h [5]"` (the five owners being brett, ben, ken,
peter and tom). -/
theorem C8_print_file_info :
    print_file_info fixtureDb defaultsH = ["chrome/browser/defaults.h [5]"] ∧
    (ownersFor fixtureDb defaultsH).length = 5 ∧
    ownersFor fixtureDb defaultsH = [brett, ben, ken, peter, tom] ∧
    print_file_info fixtureDb gpuHost =
      ["chrome/renderer/gpu/gpu_channel_host.h [5]"] := by
  decide

/-- Claim C9: calling `select_owner` or `deselect_owner` with an owner that
is unknown or already decided fails with a `PreconditionError`-kind failure;
since both commands are functions of the state that return only the error in
that case, the session state is left entirely untouched — the operation is
fully rejected, never partially applied. -/
theorem C9_precondition_rejected (fto : FPath → List Owner) (allOwners : List Owner)
    (o : Owner) (s : FinderState)
    (h : o ∉ allOwners ∨ o ∈ s.selected_owners ∨ o ∈ s.deselected_owners) :
    select_owner fto allOwners o s = Except.error (FinderError.precondition o) ∧
    deselect_owner fto allOwners o s = Except.error (FinderError.precondition o) := by
  have hcond : ¬(o ∈ allOwners ∧ o ∉ s.selected_owners ∧ o ∉ s.deselected_owners) := by
    tauto
  constructor
  · unfold select_owner
    rw [if_neg hcond]
  · unfold deselect_owner
    rw [if_neg hcond]

/-- Claim C9 witness: an unknown owner is rejected on the fixture finder. -/
theorem C9_witness :
    select_owner fixtureFto fixtureQueue "unknown@example.com" fixtureInit =
      Except.error (FinderError.precondition "unknown@example.com") ∧
    deselect_owner fixtureFto fixtureQueue "unknown@example.com" fixtureInit =
      Except.error (FinderError.precondition "unknown@example.com") :=
  C9_precondition_rejected fixtureFto fixtureQueue "unknown@example.com" fixtureInit
    (Or.inl (by decide))

/-- Claim C10: content/views/pie.h — a file of interest under a directory
whose OWNERS file holds the wildcard owner — is excluded from
`unreviewed_files` from construction onward and never appears in
`reviewed_by`, in every reachable session state, even though it is listed
among the files of interest and has ordinary eligible owners (ben, john) as
well. -/
theorem C10_wildcard_excluded (s : FinderState)
    (h : Reachable fixtureFto fixtureQueue fixtureFiles s) :
    pieH ∈ default_files ∧ ben ∈ fixtureFto pieH ∧ john ∈ fixtureFto pieH ∧
    EVERYONE ∈ fixtureFto pieH ∧
    pieH ∉ s.unreviewed_files ∧ ∀ o : Owner, (pieH, o) ∉ s.reviewed_by := by
  have hb := reachable_filesbound fixtureFto fixtureQueue fixtureFiles s h
  refine ⟨by decide, by decide, by decide, by decide, ?_, ?_⟩
  · intro hmem
    have hin : pieH ∈ fixtureFiles := hb.1 hmem
    revert hin
    decide
  · intro o hmem
    have hin : pieH ∈ fixtureFiles := hb.2 (pieH, o) hmem
    revert hin
    decide

/-- Claim C10 witness: the state after selecting john. -/
theorem C10_witness :
    pieH ∈ default_files ∧ ben ∈ fixtureFto pieH ∧ john ∈ fixtureFto pieH ∧
    EVERYONE ∈ fixtureFto pieH ∧
    pieH ∉ johnState.unreviewed_files ∧ ∀ o : Owner, (pieH, o) ∉ johnState.reviewed_by :=
  C10_wildcard_excluded johnState
    (Reachable.select fixtureInit johnState john Reachable.init (by decide))

end OwnersFinderSpec
